import Mathlib

/-!
Verification of the `exec-rest` pipeline engine against its specification.

The Rust sources are embedded shallowly:

* pure string manipulation is translated to functions over `String` /
  `List Char`;
* the fallible parts (`anyhow::Result`) become `Except`;
* a Rust panic is modelled as `Except.error ()` of a dedicated panic type;
* the stateful retry / polling loops become explicit recursions whose
  termination mirrors the counters of the source;
* machine integers (`u32`, `u64`, `usize`, `i32`) stay well inside their
  ranges in every function modelled here, so they are represented by
  `Nat` / `Int` directly.

Unicode caveat, stated once: Rust's `str::to_lowercase` performs full
Unicode case mapping.  The model `asciiToLower` below performs the ASCII
case mapping, which agrees with the source on every ASCII string; all
header constants of the program and all concrete inputs of the claims are
ASCII.  `str::to_ascii_lowercase` (used by the lookup parser) is modelled
exactly.
-/

namespace ExecRest

/-- ASCII lowercase of a character: models `u8::to_ascii_lowercase`, and
models `char::to_lowercase` on the ASCII range (see module comment). -/
def asciiLowerChar (c : Char) : Char :=
  if 65 ≤ c.toNat ∧ c.toNat ≤ 90 then Char.ofNat (c.toNat + 32) else c

/-- ASCII lowercase of a string; models Rust `str::to_ascii_lowercase`
exactly, and `str::to_lowercase` on ASCII strings. -/
def asciiToLower (s : String) : String :=
  String.mk (s.data.map asciiLowerChar)

/-- Contiguous-sublist test on character lists, used to model Rust
`str::contains(&str)`. -/
def listContainsSub (s sub : List Char) : Bool :=
  match s with
  | [] => sub.isEmpty
  | _ :: tl => sub.isPrefixOf s || listContainsSub tl sub

/-- Models Rust `str::contains(&str)`: substring containment. -/
def containsSub (s sub : String) : Bool :=
  listContainsSub s.data sub.data

/-- Rust `char::is_whitespace` (the Unicode `White_Space` property),
translated as the full code-point list. -/
def rustIsWhitespace (c : Char) : Bool :=
  c.toNat = 0x09 || c.toNat = 0x0A || c.toNat = 0x0B || c.toNat = 0x0C ||
  c.toNat = 0x0D || c.toNat = 0x20 || c.toNat = 0x85 || c.toNat = 0xA0 ||
  c.toNat = 0x1680 ||
  (0x2000 ≤ c.toNat && c.toNat ≤ 0x200A) ||
  c.toNat = 0x2028 || c.toNat = 0x2029 || c.toNat = 0x202F ||
  c.toNat = 0x205F || c.toNat = 0x3000

/-- Rust `str::trim`: drop `White_Space` characters from both ends. -/
def rustTrim (s : String) : String :=
  String.mk (((s.data.dropWhile rustIsWhitespace).reverse.dropWhile
      rustIsWhitespace).reverse)

/-- Split of a character list at every occurrence of `sep` (the
separators are consumed; `n + 1` separators yield `n + 2` segments,
empty segments included), as Rust `str::split(char)` does. -/
def splitChar (sep : Char) : List Char → List (List Char)
  | [] => [[]]
  | c :: rest =>
    if c = sep then [] :: splitChar sep rest
    else
      match splitChar sep rest with
      | [] => [[c]]
      | seg :: segs => (c :: seg) :: segs

/-- Models Rust `str::split('\t')`. -/
def splitTab (s : String) : List String :=
  (splitChar '\t' s.data).map String.mk

/-- One-step CR stripper used by `rustLines`: removes a single trailing
`'\r'`, as Rust `str::lines` does for a `"\r\n"` line ending. -/
def stripOneCr (s : String) : String :=
  if s.data.getLast? = some '\r' then String.mk s.data.dropLast else s

/-- Models Rust `str::lines`: split at `'\n'`, drop one `'\r'` before each
split point, and do not produce a final empty line for a trailing
newline.  A final segment that was not terminated by `'\n'` keeps any
trailing `'\r'`, exactly as in Rust. -/
def rustLines (s : String) : List String :=
  let segs := (splitChar '\n' s.data).map String.mk
  segs.dropLast.map stripOneCr ++
    (match segs.getLast? with
     | some l => if l = "" then [] else [l]
     | none => [])

end ExecRest

namespace ExecRest.Upload

/-!
Embedding of `src/upload.rs` (`Uploader::upload_file`,
`Uploader::is_retryable_error`, `Uploader::handle_response`).

The HTTP layer is abstracted as a sequence of attempt outcomes: attempt
`n` either succeeds (`none`) or fails with the rendered `anyhow` error
message (`some msg`), which is exactly the string
`is_retryable_error` inspects.
-/

/-- Rendered status line of `reqwest::StatusCode`'s `Display` (code and
canonical reason) for the statuses used in this development. -/
def statusDisplay (code : Nat) : String :=
  if code = 200 then "200 OK"
  else if code = 201 then "201 Created"
  else if code = 202 then "202 Accepted"
  else if code = 400 then "400 Bad Request"
  else if code = 404 then "404 Not Found"
  else if code = 405 then "405 Method Not Allowed"
  else if code = 500 then "500 Internal Server Error"
  else if code = 503 then "503 Service Unavailable"
  else toString code

/-- Models `Uploader::handle_response`: 200/201/202 succeed, 4xx yields
the "Client error" message, 5xx the "Server error" message, anything else
the "Unexpected status code" message. -/
def handleResponse (code : Nat) (body : String) : Except String Unit :=
  if code = 200 ∨ code = 201 ∨ code = 202 then .ok ()
  else if 400 ≤ code ∧ code ≤ 499 then
    .error ("Client error (" ++ statusDisplay code ++ "): " ++ body)
  else if 500 ≤ code ∧ code ≤ 599 then
    .error ("Server error (" ++ statusDisplay code ++ "): " ++ body)
  else
    .error ("Unexpected status code: " ++ statusDisplay code ++ " - " ++ body)

/-- Models `Uploader::is_retryable_error`: case-insensitive substring
match of the rendered error message against "timeout", "connection",
"network", "server error" and the literal digit "5". -/
def is_retryable_error (msg : String) : Bool :=
  let errorStr := asciiToLower msg
  containsSub errorStr "timeout" ||
  containsSub errorStr "connection" ||
  containsSub errorStr "network" ||
  containsSub errorStr "server error" ||
  containsSub errorStr "5"

/-- Terminal result of `Uploader::upload_file`, together with the
attempts that were made and the backoff sleeps that were performed (in
seconds, in order). -/
inductive UploadResult where
  | success (attemptsMade : Nat) (sleeps : List Nat)
  | failedMaxAttempts (attemptsMade : Nat) (sleeps : List Nat) (msg : String)
  | failedNonRetryable (attemptsMade : Nat) (sleeps : List Nat) (msg : String)
deriving DecidableEq, Repr

/-- The retry loop of `Uploader::upload_file`.  `outcomes n` is the
result of `try_upload` on attempt `n` (1-based): `none` is success,
`some msg` failure with rendered message `msg`.  `attempt` is the number
of attempts already made; the loop body increments it first, as in the
source. -/
def uploadLoop (outcomes : Nat → Option String) (maxAttempts : Nat)
    (backoffSecs : Nat) (attempt : Nat) (sleeps : List Nat) : UploadResult :=
  let att := attempt + 1
  match outcomes att with
  | none => .success att sleeps
  | some e =>
    if maxAttempts ≤ att then .failedMaxAttempts att sleeps e
    else if is_retryable_error e then
      uploadLoop outcomes maxAttempts (min (backoffSecs * 2) 30) att
        (sleeps ++ [backoffSecs])
    else .failedNonRetryable att sleeps e
termination_by maxAttempts - attempt
decreasing_by omega

/-- Models `Uploader::upload_file` for a given attempt-outcome sequence
and retry configuration (`max_attempts`, `initial_backoff_secs`). -/
def upload_file (outcomes : Nat → Option String) (maxAttempts : Nat)
    (initialBackoffSecs : Nat) : UploadResult :=
  uploadLoop outcomes maxAttempts initialBackoffSecs 0 []

/-- The rendered error message produced by `handle_response` for an HTTP
405 response with an empty body. -/
def clientError405 : String :=
  "Client error (405 Method Not Allowed): "

end ExecRest.Upload

namespace ExecRest.FileUtils

/-!
Embedding of `src/file_utils.rs` (`FileWatcher::find_newest_file`,
`FileWatcher::get_file_time`, `FileWatcher::parse_timestamp_from_filename`,
`FileWatcher::wait_for_stable_file`).

`SystemTime` is modelled as `Int` seconds since the Unix epoch;
`SystemTime::UNIX_EPOCH` is `0`.  The timestamps produced here are whole
seconds, so no sub-second component is needed.  A Rust panic is modelled
as `Except.error ()`.
-/

/-- UTF-8 encoded size in bytes of one character (mirrors how Rust
`str::len` counts bytes). -/
def utf8Len (c : Char) : Nat :=
  if c.toNat < 128 then 1
  else if c.toNat < 2048 then 2
  else if c.toNat < 65536 then 3
  else 4

/-- UTF-8 byte length of a character list; models Rust `str::len`. -/
def byteLen (cs : List Char) : Nat :=
  (cs.map utf8Len).sum

/-- Models the Rust byte slice `&s[..n]`: returns the characters of the
first `n` bytes, or `Except.error ()` (a panic) when `n` is not a
character boundary or exceeds the string. -/
def takeBytes : Nat → List Char → Except Unit (List Char)
  | 0, _ => .ok []
  | _ + 1, [] => .error ()
  | n + 1, c :: cs =>
    if utf8Len c ≤ n + 1 then
      (takeBytes (n + 1 - utf8Len c) cs).map (c :: ·)
    else .error ()

/-- Models Rust `char::is_ascii_digit`. -/
def isAsciiDigit (c : Char) : Bool :=
  48 ≤ c.toNat && c.toNat ≤ 57

/-- Numeric value of a decimal digit string, as computed by Rust
`str::parse` on an all-digit slice. -/
def digitsToNat (cs : List Char) : Nat :=
  cs.foldl (fun a c => 10 * a + (c.toNat - 48)) 0

/-- Gregorian leap-year test, as in `chrono` (proleptic Gregorian,
year 0 is a leap year). -/
def isLeap (y : Nat) : Bool :=
  y % 4 == 0 && (y % 100 != 0 || y % 400 == 0)

/-- Number of leap years in `[0, y)` of the proleptic Gregorian
calendar. -/
def leapsBefore (y : Nat) : Nat :=
  (y + 3) / 4 - (y + 99) / 100 + (y + 399) / 400

/-- Days in a month (`m` is 1-based). -/
def daysInMonth (leap : Bool) (m : Nat) : Nat :=
  match m with
  | 1 => 31 | 2 => if leap then 29 else 28 | 3 => 31 | 4 => 30
  | 5 => 31 | 6 => 30 | 7 => 31 | 8 => 31
  | 9 => 30 | 10 => 31 | 11 => 30 | 12 => 31
  | _ => 0

/-- Days strictly before month `m` within a year. -/
def monthOffset (leap : Bool) (m : Nat) : Nat :=
  (match m with
   | 1 => 0 | 2 => 31 | 3 => 59 | 4 => 90 | 5 => 120 | 6 => 151
   | 7 => 181 | 8 => 212 | 9 => 243 | 10 => 273 | 11 => 304 | 12 => 334
   | _ => 0) +
  (if leap && 3 ≤ m then 1 else 0)

/-- Day index of a calendar date counted from 0000-01-01 (proleptic
Gregorian), for a valid date. -/
def dayNumber (y m d : Nat) : Nat :=
  365 * y + leapsBefore y + monthOffset (isLeap y) m + (d - 1)

/-- Days from 0000-01-01 to 1970-01-01, times 86400 seconds. -/
def epochShift : Int := 719528 * 86400

/-- Seconds since the Unix epoch of a UTC calendar time, the value a
`SystemTime` built from a `chrono` UTC datetime compares by. -/
def epochSecs (y m d h mi s : Nat) : Int :=
  86400 * (dayNumber y m d : Int) + 3600 * h + 60 * mi + s - epochShift

/-- Validity of the six timestamp fields, exactly the checks of
`chrono::NaiveDate::from_ymd_opt` (for four-digit years) and
`NaiveDate::and_hms_opt`. -/
def validFields (y m d h mi s : Nat) : Bool :=
  decide (1 ≤ m) && decide (m ≤ 12) && decide (1 ≤ d) &&
  decide (d ≤ daysInMonth (isLeap y) m) &&
  decide (h ≤ 23) && decide (mi ≤ 59) && decide (s ≤ 59)

/-- Models `FileWatcher::parse_timestamp_from_filename`.  `Except.error`
is the panic raised by the byte slice `&filename[..14]` when byte 14 is
not a character boundary; `.ok none` is Rust `None`; `.ok (some t)` is a
parsed timestamp (as `SystemTime`, i.e. epoch seconds). -/
def parse_timestamp_from_filename (filename : String) : Except Unit (Option Int) :=
  let cs := filename.data
  if byteLen cs < 14 then .ok none
  else
    match takeBytes 14 cs with
    | .error _ => .error ()
    | .ok pre =>
      if pre.all isAsciiDigit then
        let y := digitsToNat (pre.take 4)
        let m := digitsToNat ((pre.drop 4).take 2)
        let d := digitsToNat ((pre.drop 6).take 2)
        let h := digitsToNat ((pre.drop 8).take 2)
        let mi := digitsToNat ((pre.drop 10).take 2)
        let s := digitsToNat ((pre.drop 12).take 2)
        if validFields y m d h mi s then .ok (some (epochSecs y m d h mi s))
        else .ok none
      else .ok none

/-- A regular file seen by `find_newest_file`: its final filename
component and its filesystem modification time (`none` models a failing
`std::fs::metadata` call, whose `Err` the sort maps to
`SystemTime::UNIX_EPOCH` via `unwrap_or`). -/
structure FileEntry where
  name : String
  mtime : Option Int
deriving DecidableEq, Repr

/-- Models `FileWatcher::get_file_time`: metadata errors become `Err`
(`.ok none` here, because the only caller applies `unwrap_or`); with
filename-timestamp mode enabled a parsed prefix timestamp takes
precedence over the modification time; a panic propagates. -/
def get_file_time (prefixMode : Bool) (f : FileEntry) : Except Unit (Option Int) :=
  match f.mtime with
  | none => .ok none
  | some mt =>
    if prefixMode then
      match parse_timestamp_from_filename f.name with
      | .error _ => .error ()
      | .ok (some t) => .ok (some t)
      | .ok none => .ok (some mt)
    else .ok (some mt)

/-- Effective timestamp used by the sort comparator of
`find_newest_file`: `get_file_time(..).unwrap_or(SystemTime::UNIX_EPOCH)`. -/
def effTime (prefixMode : Bool) (f : FileEntry) : Except Unit Int :=
  (get_file_time prefixMode f).map (fun o => o.getD 0)

/-- Selection scan of `find_newest_file`: the source sorts the candidates
by effective timestamp, newest first, with Rust's stable `sort_by`, and
takes the head; for a comparator that orders by effective timestamp only,
that head is the first candidate whose effective timestamp is maximal,
which is what this fold computes. -/
def selectNewest (prefixMode : Bool) :
    List FileEntry → FileEntry → Int → Except Unit (Option FileEntry)
  | [], best, _ => .ok (some best)
  | g :: gs, best, bt =>
    match effTime prefixMode g with
    | .error e => .error e
    | .ok gt =>
      if bt < gt then selectNewest prefixMode gs g gt
      else selectNewest prefixMode gs best bt

/-- Models `FileWatcher::find_newest_file`, given the list of candidate
regular files produced by the glob scan (in directory enumeration
order): empty input yields `Ok(None)`; otherwise the first candidate of
maximal effective timestamp is returned.  A panic in the comparator
propagates. -/
def find_newest_file (prefixMode : Bool) (files : List FileEntry) :
    Except Unit (Option FileEntry) :=
  match files with
  | [] => .ok none
  | f :: fs =>
    match effTime prefixMode f with
    | .error e => .error e
    | .ok t => selectNewest prefixMode fs f t

/-- Numeric value of the first 14 filename characters (the claim's
"14-digit prefix"). -/
def prefixNum (f : FileEntry) : Nat :=
  digitsToNat (f.name.data.take 14)

/-- Whether the filename carries a valid 14-digit timestamp, i.e.
`parse_timestamp_from_filename` succeeds with a value. -/
def hasValidTs (f : FileEntry) : Bool :=
  match parse_timestamp_from_filename f.name with
  | .ok (some _) => true
  | _ => false

/-- The parsed prefix timestamp of a candidate (0 when there is none);
for candidates with `hasValidTs` this is the effective timestamp. -/
def parsedTs (f : FileEntry) : Int :=
  match parse_timestamp_from_filename f.name with
  | .ok (some t) => t
  | _ => 0

/-- Outcome of `FileWatcher::wait_for_stable_file`; both constructors are
`Ok(())` in the source (the hard ceiling proceeds with a warning, it does
not fail).  The payload counts the size polls performed. -/
inductive StableOutcome where
  | stable (polls : Nat)
  | timeoutProceeded (polls : Nat)
deriving DecidableEq, Repr

/-- Number of size polls performed before returning. -/
def StableOutcome.polls : StableOutcome → Nat
  | .stable p => p
  | .timeoutProceeded p => p

/-- The `Result<(), _>` value `wait_for_stable_file` returns for an
outcome: `Ok(())` in both cases. -/
def StableOutcome.toResult : StableOutcome → Except String Unit
  | .stable _ => .ok ()
  | .timeoutProceeded _ => .ok ()

/-- Polling loop of `wait_for_stable_file`.  `reads i` is the `i`-th
size poll: `some size` for a successful `fs::metadata`, `none` for a read
error (logged and ignored by the source).  `i` is both the poll index and
the value of `total_wait_secs` at loop entry (the source increments the
counter once per iteration, after the half-second sleep); the loop stops
once the counter reaches `max_wait_secs * 2 = 20`. -/
def waitLoop (reads : Nat → Option Nat) (required : Nat)
    (i lastSize stableCount : Nat) : StableOutcome :=
  match reads i with
  | some size =>
    if size = lastSize then
      if required ≤ stableCount + 1 then .stable (i + 1)
      else if 10 * 2 ≤ i + 1 then .timeoutProceeded (i + 1)
      else waitLoop reads required (i + 1) lastSize (stableCount + 1)
    else
      if 10 * 2 ≤ i + 1 then .timeoutProceeded (i + 1)
      else waitLoop reads required (i + 1) size 0
  | none =>
    if 10 * 2 ≤ i + 1 then .timeoutProceeded (i + 1)
    else waitLoop reads required (i + 1) lastSize stableCount
termination_by 10 * 2 - i
decreasing_by all_goals omega

/-- Models `FileWatcher::wait_for_stable_file` with
`stable_size_check_secs = stableSecs`: required consecutive equal reads
are `(stableSecs * 2).max 1`, initial `last_size = 0`,
`stable_count = 0`, `total_wait_secs = 0`. -/
def wait_for_stable_file (reads : Nat → Option Nat) (stableSecs : Nat) :
    StableOutcome :=
  waitLoop reads (max (stableSecs * 2) 1) 0 0 0

end ExecRest.FileUtils

namespace ExecRest.Transform

/-!
Embedding of `src/transform.rs` (`Transformer::transform_file`,
`Transformer::find_data_start`).  The input is taken after
`read_file_content`'s decoding step (a pure function of the input
bytes), so `transform_file` maps the decoded text and the configuration
to the output text, whose UTF-8 bytes are the bytes written to the
temporary output file.

The duplicate filter of the source is a `std::collections::HashSet`.
Only its `contains`/`insert` interface is used, never its iteration
order; to prove that the output does not depend on the set's internal
organisation, the set is abstracted as any implementation (`SetImpl`)
satisfying the contains/insert contract, which every `HashSet` (with any
hasher) does.
-/

open ExecRest

/-- The configuration fields of `TransformConfig` that
`transform_file` reads (`enabled` is consulted by the orchestration
loop only). -/
structure TransformCfg where
  format : String
  headerRowsToSkip : Nat
  headerMatch : String
  dedupeRows : Bool
  trimWhitespace : Bool
  outputLineEnding : String
deriving Repr

/-- An implementation of the string-set interface used for
`seen_rows`, together with the contract every `HashSet<String>`
satisfies. -/
structure SetImpl where
  S : Type
  empty : S
  contains : S → String → Bool
  insert : S → String → S
  contains_empty : ∀ x, contains empty x = false
  contains_insert : ∀ t x y, contains (insert t x) y = (x == y || contains t y)

/-- The reference implementation: a plain list. -/
def listSet : SetImpl where
  S := List String
  empty := []
  contains t x := t.contains x
  insert t x := x :: t
  contains_empty := by intro x; rfl
  contains_insert := by
    intro t x y
    simp only [List.contains_cons]
    congr 1
    simp [eq_comm]

/-- Errors of `transform_file` / `find_data_start`. -/
inductive TransformError where
  | tooFewLines
  | notEnoughLinesToSkip
deriving DecidableEq, Repr

/-- Header-row scan of `find_data_start`: first index `i` (counting from
`skip`, as the source's `enumerate().skip(skip)` does) whose line
contains the configured header substring case-insensitively. -/
def findHeaderIdx (headerMatch : String) : List String → Nat → Option Nat
  | [], _ => none
  | l :: ls, i =>
    if containsSub (asciiToLower l) (asciiToLower headerMatch) then some i
    else findHeaderIdx headerMatch ls (i + 1)

/-- Models `Transformer::find_data_start`: error when the line count is
too small, the line after the first header match otherwise, and the
configured skip count as fallback when no line matches. -/
def find_data_start (lines : List String) (skip : Nat) (headerMatch : String) :
    Except TransformError Nat :=
  if lines.length ≤ skip then .error .notEnoughLinesToSkip
  else
    match findHeaderIdx headerMatch (lines.drop skip) skip with
    | some i => .ok (i + 1)
    | none => .ok skip

/-- Data-row loop of `transform_file`: skip blank lines, optionally trim,
optionally drop duplicates via the seen-set, and accumulate in order. -/
def processRows (M : SetImpl) (trimW dedupe : Bool) (seen : M.S) :
    List String → List String
  | [] => []
  | l :: ls =>
    if rustTrim l = "" then processRows M trimW dedupe seen ls
    else if (if trimW then rustTrim l else l) = "" then
      processRows M trimW dedupe seen ls
    else if dedupe then
      if M.contains seen (if trimW then rustTrim l else l) then
        processRows M trimW dedupe seen ls
      else (if trimW then rustTrim l else l) ::
        processRows M trimW dedupe (M.insert seen (if trimW then rustTrim l else l)) ls
    else (if trimW then rustTrim l else l) :: processRows M trimW dedupe seen ls

/-- Serialisation step of `transform_file`: fixed three-column header,
configured line ending, tabs rewritten to commas in CSV mode. -/
def serializeOutput (format lineEnding : String) (rows : List String) : String :=
  let header := if format = "csv" then "Plant,Delivery,Material"
    else "Plant\tDelivery\tMaterial"
  let le := if lineEnding = "crlf" then "\r\n" else "\n"
  header ++ le ++ String.join (rows.map (fun row =>
    (if format = "csv" then
       String.mk (row.data.map (fun c => if c = '\t' then ',' else c))
     else row) ++ le))

/-- Models `Transformer::transform_file` on the decoded input text,
parametrised by the seen-set implementation `M`. -/
def transformWith (M : SetImpl) (cfg : TransformCfg) (content : String) :
    Except TransformError String :=
  let lines := rustLines content
  if lines.length ≤ cfg.headerRowsToSkip then .error .tooFewLines
  else
    match find_data_start lines cfg.headerRowsToSkip cfg.headerMatch with
    | .error e => .error e
    | .ok dataStart =>
      .ok (serializeOutput cfg.format cfg.outputLineEnding
        (processRows M cfg.trimWhitespace cfg.dedupeRows M.empty
          (lines.drop dataStart)))

/-- `transform_file` with the reference set implementation. -/
def transform_file (cfg : TransformCfg) (content : String) :
    Except TransformError String :=
  transformWith listSet cfg content

end ExecRest.Transform

namespace ExecRest.Lookup

/-!
Embedding of `src/lookup.rs` (`LookupEnricher::parse_tsv_file`,
`LookupEnricher::merge_lookup_data`, and the response parsing of
`LookupEnricher::lookup_single_chunk`).

The lookup response JSON is modelled at the level of parsed JSON values
(`serde_json::Value`); the text-to-value JSON parser is a standard
library function, not code of this repository.  A `HashMap` received
from response parsing is represented as an association list built in
insertion order; `merge_lookup_data` consumes it only through `get`,
modelled by `lookupGet`.
-/

open ExecRest

/-- The `EnrichedRow` record of `src/lookup.rs`. -/
structure EnrichedRow where
  plant : String
  delivery : String
  part_no : String
  duns : String
  cof : String
  country : String
  shipment : String
deriving DecidableEq, Repr

/-- A freshly parsed row: enrichment fields empty, as in
`parse_tsv_file`. -/
def baseRow (plant delivery part_no : String) : EnrichedRow :=
  ⟨plant, delivery, part_no, "", "", "", ""⟩

/-- The `LookupResponse` record (one lookup result). -/
structure LookupResponse where
  duns : String
  cof : String
  country : String
deriving DecidableEq, Repr

/-- Models `str::trim_end_matches(['\r', '\n'])`: repeatedly drop a
trailing CR or LF. -/
def dropCrLfEnd (s : String) : String :=
  String.mk ((s.data.reverse.dropWhile (fun c => c = '\r' || c = '\n')).reverse)

/-- First whitespace token of a string: `split_whitespace` followed by
taking element 0, as the material-column handling does.  `none` when the
string is all whitespace. -/
def firstWsToken (s : String) : Option String :=
  match (s.data.dropWhile rustIsWhitespace).takeWhile (fun c => !rustIsWhitespace c) with
  | [] => none
  | w => some (String.mk w)

/-- Header test of `parse_tsv_file`: the `to_ascii_lowercase` of the
trimmed line contains all of "plant", "delivery" and "material". -/
def isHeaderLine (t : String) : Bool :=
  let lc := asciiToLower t
  containsSub lc "plant" && containsSub lc "delivery" && containsSub lc "material"

/-- Material-column scan of `parse_tsv_file`: walk the tab fields of
index ≥ 2 from the end; the first whose trimmed text is non-empty
provides the part number as its first whitespace token. -/
def findPartNo (cols : List String) : String :=
  go ((cols.drop 2).reverse)
where
  /-- Reverse-order scan over the candidate columns (`col` of the source
  is the trimmed field). -/
  go : List String → String
    | [] => ""
    | c :: rest =>
      if rustTrim c = "" then go rest
      else
        match firstWsToken (rustTrim c) with
        | none => go rest
        | some w => w

/-- Data-row extraction of `parse_tsv_file`, applied to the trimmed
line `t`: split on tab, require at least 3 fields, plant and delivery
are fields 0 and 1 trimmed, the part number comes from `findPartNo`;
rows with all three empty are discarded. -/
def rowOfTrimmed (t : String) : Option EnrichedRow :=
  match splitTab t with
  | c0 :: c1 :: c2 :: rest =>
    if rustTrim c0 = "" ∧ rustTrim c1 = "" ∧
        findPartNo (c0 :: c1 :: c2 :: rest) = "" then none
    else some (baseRow (rustTrim c0) (rustTrim c1)
      (findPartNo (c0 :: c1 :: c2 :: rest)))
  | _ => none

/-- Line loop of `parse_tsv_file`: before the header each line is only
examined by the header test; after it, non-blank lines are parsed as
data rows. -/
def parseLines (seenHeader : Bool) : List String → List EnrichedRow
  | [] => []
  | l :: ls =>
    if rustTrim (dropCrLfEnd l) = "" then parseLines seenHeader ls
    else if !seenHeader then
      if isHeaderLine (rustTrim (dropCrLfEnd l)) then parseLines true ls
      else parseLines false ls
    else
      match rowOfTrimmed (rustTrim (dropCrLfEnd l)) with
      | none => parseLines seenHeader ls
      | some r => r :: parseLines seenHeader ls

/-- Models `LookupEnricher::parse_tsv_file` on the decoded file text. -/
def parse_tsv_file (content : String) : List EnrichedRow :=
  parseLines false (rustLines content)

/-- Models `LookupEnricher::merge_lookup_data`.  The lookup map is given
by its `get` function.  Rows with a hit receive that entry's values;
rows without one are returned unchanged. -/
def merge_lookup_data (rows : List EnrichedRow)
    (lookupData : String → Option LookupResponse) : List EnrichedRow :=
  rows.map (fun row =>
    match lookupData row.part_no with
    | some l => { row with duns := l.duns, cof := l.cof, country := l.country }
    | none => row)

/-- Parsed JSON values (`serde_json::Value`).  Objects and arrays keep
their syntactic field/element order. -/
inductive Json where
  | null
  | bool (b : Bool)
  | num (n : Int)
  | str (s : String)
  | arr (elems : List Json)
  | obj (fields : List (String × Json))

/-- Field access on a JSON value: `Value::get(key)` (first matching
field of an object, `None` otherwise). -/
def Json.getField (j : Json) (key : String) : Option Json :=
  match j with
  | .obj fields =>
    match fields.find? (fun kv => kv.1 = key) with
    | some kv => some kv.2
    | none => none
  | _ => none

/-- `Value::as_str`. -/
def Json.asStr : Json → Option String
  | .str s => some s
  | _ => none

/-- Deserialisation of one `LookupResponse` from a JSON value: an object
with string fields "duns", "cof" and "country" (serde requires all
three; unknown fields are ignored). -/
def lookupRespOfJson (j : Json) : Option LookupResponse :=
  match j with
  | .obj _ =>
    match j.getField "duns" >>= Json.asStr,
          j.getField "cof" >>= Json.asStr,
          j.getField "country" >>= Json.asStr with
    | some d, some c, some co => some ⟨d, c, co⟩
    | _, _, _ => none
  | _ => none

/-- Deserialisation of `HashMap<String, LookupResponse>` from a JSON
value: an object each of whose field values is a `LookupResponse`; the
entries are collected as an association list. -/
def lookupMapOfJson (j : Json) : Option (List (String × LookupResponse)) :=
  match j with
  | .obj fields =>
    fields.foldr (fun kv acc =>
      match lookupRespOfJson kv.2, acc with
      | some r, some m => some ((kv.1, r) :: m)
      | _, _ => none) (some [])
  | _ => none

/-- `HashMap::insert` on the association-list representation: replace an
existing binding for the key, append otherwise. -/
def assocInsert (m : List (String × LookupResponse)) (k : String)
    (v : LookupResponse) : List (String × LookupResponse) :=
  if m.any (fun kv => kv.1 = k) then
    m.map (fun kv => if kv.1 = k then (k, v) else kv)
  else m ++ [(k, v)]

/-- Array-shaped fallback of `lookup_single_chunk`: each array element
contributes an entry when it has a "part"/"part_no"/"material" key whose
value is a string and a string "duns" field; "cof" and "country" default
to the empty string. -/
def lookupMapOfArray (elems : List Json) : List (String × LookupResponse) :=
  elems.foldl (fun m item =>
    match (item.getField "part" <|> item.getField "part_no" <|>
           item.getField "material"),
          (item.getField "duns" >>= Json.asStr) with
    | some partKey, some duns =>
      match partKey.asStr with
      | some part_no =>
        assocInsert m part_no
          ⟨duns,
           ((item.getField "cof" >>= Json.asStr)).getD "",
           ((item.getField "country" >>= Json.asStr)).getD ""⟩
      | none => m
    | _, _ => m) []

/-- Response handling of `lookup_single_chunk` after a successful HTTP
status, on the parsed JSON value: first try the object shape
(`HashMap<String, LookupResponse>`); if that fails, require an array and
extract records; any other shape is an error. -/
def parseLookupResponse (j : Json) : Except String (List (String × LookupResponse)) :=
  match lookupMapOfJson j with
  | some m => .ok m
  | none =>
    match j with
    | .arr elems => .ok (lookupMapOfArray elems)
    | _ => .error "Failed to parse lookup response as JSON array or object."

/-- `HashMap::get` on the association-list representation. -/
def lookupGet (m : List (String × LookupResponse)) (k : String) :
    Option LookupResponse :=
  (m.find? (fun kv => kv.1 = k)).map (fun kv => kv.2)

/-- The object-shaped response of the dual-schema claim. -/
def objResponse : Json :=
  .obj [("123", .obj [("duns", .str "d1"), ("cof", .str "c1"),
    ("country", .str "US")])]

/-- The array-shaped response of the dual-schema claim. -/
def arrResponse : Json :=
  .arr [.obj [("part", .str "123"), ("duns", .str "d1"), ("cof", .str "c1"),
    ("country", .str "US")]]

/-!
Specification-side reformulation of the parser, written from the claim's
words for comparison with the embedded `parse_tsv_file`.
-/

/-- Claim side: the lines after the header, the header being the first
non-blank line that case-insensitively contains "plant", "delivery" and
"material"; `none` when no such line exists. -/
def c6LinesAfterHeader : List String → Option (List String)
  | [] => none
  | l :: ls =>
    if rustTrim (dropCrLfEnd l) ≠ "" ∧ isHeaderLine (rustTrim (dropCrLfEnd l))
    then some ls else c6LinesAfterHeader ls

/-- Part number of the claim's description: the first whitespace token
of the last tab field at index ≥ 2 whose trimmed value is non-empty, or
the empty string when no such field exists. -/
def c6PartNo (cols : List String) : String :=
  match (cols.drop 2).reverse.find? (fun c => rustTrim c ≠ "") with
  | none => ""
  | some c => (firstWsToken (rustTrim c)).getD ""

/-- Claim side, amended reading, core on the trimmed line `t`: split on
tab; at least 3 fields are required; plant and delivery are fields 0 and
1 trimmed; the part number is `c6PartNo`; all-empty rows yield
nothing. -/
def c6RowCore (t : String) : Option EnrichedRow :=
  if (splitTab t).length < 3 then none
  else if rustTrim ((splitTab t).headI) = "" ∧
      rustTrim (((splitTab t).drop 1).headI) = "" ∧
      c6PartNo (splitTab t) = "" then none
  else some (baseRow (rustTrim ((splitTab t).headI))
    (rustTrim (((splitTab t).drop 1).headI)) (c6PartNo (splitTab t)))

/-- Claim side, amended reading: blank lines yield nothing, any other
line is processed by `c6RowCore` on its whitespace-trimmed text. -/
def c6RowAmended (l : String) : Option EnrichedRow :=
  if rustTrim (dropCrLfEnd l) = "" then none
  else c6RowCore (rustTrim (dropCrLfEnd l))

/-- Field extraction of the literal claim reading, on the raw tab
fields: the part-number column is the last non-empty (rather than
non-blank) field at index ≥ 2. -/
def c6RowLiteralCore (cols : List String) : Option EnrichedRow :=
  if cols.length < 3 then none
  else
    let plant := rustTrim (cols.headI)
    let delivery := rustTrim ((cols.drop 1).headI)
    let part_no :=
      match (cols.drop 2).reverse.find? (fun c => c ≠ "") with
      | none => ""
      | some c => (firstWsToken c).getD ""
    if plant = "" ∧ delivery = "" ∧ part_no = "" then none
    else some (baseRow plant delivery part_no)

/-- Claim side, literal reading: as `c6RowAmended`, but the tab fields
are those of the raw line (the claim says "split on tab" with no mention
of trimming). -/
def c6RowLiteral (l : String) : Option EnrichedRow :=
  if rustTrim (dropCrLfEnd l) = "" then none
  else c6RowLiteralCore (splitTab (dropCrLfEnd l))

/-- The claim's parser description, parametrised by the row extractor:
everything before the header is skipped, every line after it is fed to
the extractor. -/
def c6Parse (rowOf : String → Option EnrichedRow) (content : String) :
    List EnrichedRow :=
  match c6LinesAfterHeader (rustLines content) with
  | none => []
  | some rest => rest.filterMap rowOf

/-- The document that separates the literal reading of the claim from
the code: its data line starts with a tab (as the lines of this
repository's own parser tests do). -/
def c6Doc : String :=
  "Plant\tDelivery\tMaterial\n\tPLT01\t111\t987654321\n"

end ExecRest.Lookup

/-!
## Theorems
-/

namespace ExecRest

/-- Helper: the head of a `dropWhile` result fails the predicate. -/
lemma dropWhile_head_false {α : Type} {p : α → Bool} :
    ∀ {l : List α} {a : α} {t : List α}, List.dropWhile p l = a :: t → p a = false := by
  intro l
  induction l with
  | nil => intro a t h; simp [List.dropWhile] at h
  | cons c cs ih =>
    intro a t h
    by_cases hc : p c
    · rw [List.dropWhile_cons_of_pos hc] at h
      exact ih h
    · rw [List.dropWhile_cons_of_neg hc] at h
      cases h
      exact Bool.of_not_eq_true hc

/-- Helper: the head of a both-ends trim of a character list fails the
predicate, because it also heads the front `dropWhile`. -/
lemma trimmed_head_false (p : Char → Bool) (l : List Char) (a : Char)
    (t : List Char)
    (h : ((l.dropWhile p).reverse.dropWhile p).reverse = a :: t) :
    p a = false := by
  have hsplit : l.dropWhile p =
      ((l.dropWhile p).reverse.dropWhile p).reverse ++
        ((l.dropWhile p).reverse.takeWhile p).reverse := by
    conv_lhs => rw [← List.reverse_reverse (l.dropWhile p),
      ← List.takeWhile_append_dropWhile (p := p) (l := (l.dropWhile p).reverse)]
    rw [List.reverse_append]
  rw [h] at hsplit
  exact dropWhile_head_false hsplit

/-- Helper: a non-empty trimmed string starts with a non-whitespace
character, so its first whitespace token exists. -/
lemma rustTrim_firstWsToken (s : String) (h : rustTrim s ≠ "") :
    ∃ w, ExecRest.Lookup.firstWsToken (rustTrim s) = some w := by
  cases hM : (rustTrim s).data with
  | nil =>
    exfalso
    apply h
    have heta : rustTrim s = String.mk ((rustTrim s).data) := rfl
    rw [heta, hM]
  | cons a t =>
    have hwa : rustIsWhitespace a = false :=
      trimmed_head_false rustIsWhitespace s.data a t (by rw [← hM]; rfl)
    refine ⟨String.mk ((a :: t).takeWhile (fun c => !rustIsWhitespace c)), ?_⟩
    rw [ExecRest.Lookup.firstWsToken, hM,
      List.dropWhile_cons_of_neg (by simp [hwa]),
      List.takeWhile_cons_of_pos (by simp [hwa])]

end ExecRest

namespace ExecRest.Lookup

/-- Helper: the reverse-order material scan equals the claim's "last
field whose trimmed value is non-empty" formulation. -/
lemma findPartNo_go_eq (cs : List String) :
    findPartNo.go cs =
      match cs.find? (fun c => rustTrim c ≠ "") with
      | none => ""
      | some c => (firstWsToken (rustTrim c)).getD "" := by
  induction cs with
  | nil => rfl
  | cons c rest ih =>
    rw [findPartNo.go, List.find?_cons]
    by_cases h : rustTrim c = ""
    · simp [h, ih]
    · obtain ⟨w, hw⟩ := ExecRest.rustTrim_firstWsToken c h
      simp [h, hw]

/-- Helper: the embedded material scan equals the claim's part-number
description. -/
lemma findPartNo_eq_c6PartNo (cols : List String) :
    findPartNo cols = c6PartNo cols := by
  rw [findPartNo, c6PartNo]
  exact findPartNo_go_eq _

/-- Helper: the embedded data-row extraction on a trimmed line equals
the claim-side core. -/
lemma rowOfTrimmed_eq_core (t : String) : rowOfTrimmed t = c6RowCore t := by
  rw [rowOfTrimmed, c6RowCore]
  rcases hc : splitTab t with _ | ⟨c0, _ | ⟨c1, _ | ⟨c2, rest⟩⟩⟩
  · simp
  · simp
  · simp
  · have hlen : ¬ ((c0 :: c1 :: c2 :: rest).length < 3) := by
      simp only [List.length_cons]
      omega
    rw [if_neg hlen]
    simp only [List.headI, List.drop, findPartNo_eq_c6PartNo]

/-- Helper: after the header has been seen, the line loop is the
filter-map of the amended row extractor. -/
lemma parseLines_true_eq (ls : List String) :
    parseLines true ls = ls.filterMap c6RowAmended := by
  induction ls with
  | nil => rfl
  | cons l ls ih =>
    rw [parseLines, List.filterMap_cons]
    by_cases h : rustTrim (dropCrLfEnd l) = ""
    · rw [if_pos h, ih]
      have hnone : c6RowAmended l = none := by rw [c6RowAmended, if_pos h]
      rw [hnone]
    · rw [if_neg h]
      have hsome : c6RowAmended l = rowOfTrimmed (rustTrim (dropCrLfEnd l)) := by
        rw [c6RowAmended, if_neg h, rowOfTrimmed_eq_core]
      rw [hsome]
      simp only [Bool.not_true, Bool.false_eq_true, if_false]
      cases hr : rowOfTrimmed (rustTrim (dropCrLfEnd l)) with
      | none => rw [ih]
      | some r => rw [ih]

/-- Helper: before the header has been seen, the line loop searches for
the header and continues in data mode after it. -/
lemma parseLines_false_eq (ls : List String) :
    parseLines false ls =
      match c6LinesAfterHeader ls with
      | none => []
      | some rest => parseLines true rest := by
  induction ls with
  | nil => rfl
  | cons l ls ih =>
    rw [parseLines, c6LinesAfterHeader]
    by_cases h : rustTrim (dropCrLfEnd l) = ""
    · rw [if_pos h, if_neg (by simp [h]), ih]
    · rw [if_neg h]
      simp only [Bool.not_false, if_true]
      by_cases hh : isHeaderLine (rustTrim (dropCrLfEnd l))
      · rw [if_pos hh, if_pos ⟨h, hh⟩]
      · rw [if_neg hh, if_neg (by simp [hh]), ih]

/-- C6 (amended).  The parser of `parse_tsv_file` coincides with the
claim's description amended in one point: the tab fields of a data line
are those of the whitespace-trimmed line (and consequently the
part-number column is the last field at index ≥ 2 whose trimmed value is
non-empty).  Header selection, the ≥ 3 field requirement, the skipping
of short lines and the discarding of all-empty rows are as the claim
states them. -/
theorem parse_tsv_file_matches_spec (content : String) :
    parse_tsv_file content = c6Parse c6RowAmended content := by
  rw [parse_tsv_file, c6Parse, parseLines_false_eq]
  cases h : c6LinesAfterHeader (rustLines content) with
  | none => rfl
  | some rest => exact parseLines_true_eq rest

/-- C6 counterexample.  On a document whose data line begins with a tab
(the shape of this repository's own parser tests), the code trims the
line before splitting and parses plant "PLT01" and delivery "111",
whereas the claim's literal reading (split the raw line on tab) yields
plant "" and delivery "PLT01": the claim as stated is false of the
code. -/
theorem parse_tsv_literal_reading_counterexample :
    parse_tsv_file c6Doc = [baseRow "PLT01" "111" "987654321"] ∧
    c6Parse c6RowLiteral c6Doc = [baseRow "" "PLT01" "987654321"] ∧
    parse_tsv_file c6Doc ≠ c6Parse c6RowLiteral c6Doc := by
  exact ⟨by decide, by decide, by decide⟩

end ExecRest.Lookup

namespace ExecRest.Transform

/-- Helper: the data-row loop only consults the seen-set through
`contains`, so two set implementations whose states contain the same
strings produce the same rows. -/
lemma processRows_congr (M₁ M₂ : SetImpl) (trimW dedupe : Bool)
    (s₁ : M₁.S) (s₂ : M₂.S)
    (h : ∀ x, M₁.contains s₁ x = M₂.contains s₂ x) (ls : List String) :
    processRows M₁ trimW dedupe s₁ ls = processRows M₂ trimW dedupe s₂ ls := by
  induction ls generalizing s₁ s₂ with
  | nil => rfl
  | cons l ls ih =>
    rw [processRows, processRows]
    by_cases hb : rustTrim l = ""
    · rw [if_pos hb, if_pos hb, ih s₁ s₂ h]
    · rw [if_neg hb, if_neg hb]
      by_cases hpe : (if trimW then rustTrim l else l) = ""
      · rw [if_pos hpe, if_pos hpe, ih s₁ s₂ h]
      · rw [if_neg hpe, if_neg hpe]
        by_cases hd : dedupe = true
        · rw [if_pos hd, if_pos hd, h]
          by_cases hc : M₂.contains s₂ (if trimW then rustTrim l else l) = true
          · rw [if_pos hc, if_pos hc, ih s₁ s₂ h]
          · rw [if_neg hc, if_neg hc,
              ih (M₁.insert s₁ _) (M₂.insert s₂ _) (fun x => by
                rw [M₁.contains_insert, M₂.contains_insert, h])]
        · rw [if_neg hd, if_neg hd, ih s₁ s₂ h]

/-- C9.  The reshape output is a deterministic function of the decoded
input text and the configuration: it does not depend on the internal
organisation of the duplicate-filter set (hash seed, iteration order),
because any two implementations of the `contains`/`insert` contract
yield identical output; and as a total function of `(cfg, content)` it
depends on nothing else (no time, no environment).  Together with the
deterministic byte decoding of `read_file_content`, two runs on
byte-identical inputs with equal configuration write byte-identical
outputs. -/
theorem transform_file_deterministic (M₁ M₂ : SetImpl) (cfg : TransformCfg)
    (content : String) :
    transformWith M₁ cfg content = transformWith M₂ cfg content := by
  rw [transformWith, transformWith]
  by_cases hlen : (rustLines content).length ≤ cfg.headerRowsToSkip
  · rw [if_pos hlen, if_pos hlen]
  · rw [if_neg hlen, if_neg hlen]
    cases find_data_start (rustLines content) cfg.headerRowsToSkip
        cfg.headerMatch with
    | error e => rfl
    | ok dataStart =>
      have := processRows_congr M₁ M₂ cfg.trimWhitespace cfg.dedupeRows
        M₁.empty M₂.empty
        (fun x => by rw [M₁.contains_empty, M₂.contains_empty])
        ((rustLines content).drop dataStart)
      simp only [this]

/-- Helper: the header scan finds nothing when no line matches. -/
lemma findHeaderIdx_none (hm : String) (ls : List String) (i : Nat)
    (h : ∀ l ∈ ls, containsSub (asciiToLower l) (asciiToLower hm) = false) :
    findHeaderIdx hm ls i = none := by
  induction ls generalizing i with
  | nil => rfl
  | cons l ls ih =>
    rw [findHeaderIdx]
    rw [if_neg (by simp [h l (by simp)])]
    exact ih (i + 1) (fun x hx => h x (by simp [hx]))

/-- C5.  `transform_file` returns the too-few-lines error exactly when
the line count is at most the configured header-rows-to-skip; and when
no line at or after the skip offset contains the configured header
substring (case-insensitively), it does not fail: `find_data_start`
falls back to exactly the skip offset and the transformation returns an
output. -/
theorem transform_too_few_lines_iff_and_header_fallback (M : SetImpl)
    (cfg : TransformCfg) (content : String) :
    (transformWith M cfg content = .error .tooFewLines ↔
      (rustLines content).length ≤ cfg.headerRowsToSkip) ∧
    (cfg.headerRowsToSkip < (rustLines content).length →
      (∀ l ∈ (rustLines content).drop cfg.headerRowsToSkip,
        containsSub (asciiToLower l) (asciiToLower cfg.headerMatch) = false) →
      find_data_start (rustLines content) cfg.headerRowsToSkip
          cfg.headerMatch = .ok cfg.headerRowsToSkip ∧
      ∃ out, transformWith M cfg content = .ok out) := by
  constructor
  · constructor
    · intro herr
      by_contra hgt
      rw [transformWith, if_neg hgt] at herr
      rw [find_data_start, if_neg hgt] at herr
      cases hidx : findHeaderIdx cfg.headerMatch
          ((rustLines content).drop cfg.headerRowsToSkip)
          cfg.headerRowsToSkip <;> simp [hidx] at herr
    · intro hle
      rw [transformWith, if_pos hle]
  · intro hgt hnone
    have hfind : find_data_start (rustLines content) cfg.headerRowsToSkip
        cfg.headerMatch = .ok cfg.headerRowsToSkip := by
      rw [find_data_start, if_neg (by omega),
        findHeaderIdx_none cfg.headerMatch _ _ hnone]
    refine ⟨hfind, ?_⟩
    rw [transformWith, if_neg (by omega), hfind]
    exact ⟨_, rfl⟩

/-- Helper: the header scan skips a non-matching block, advancing the
reported index by its length. -/
lemma findHeaderIdx_append (hm : String) (l1 l2 : List String) (i : Nat)
    (h : ∀ l ∈ l1, containsSub (asciiToLower l) (asciiToLower hm) = false) :
    findHeaderIdx hm (l1 ++ l2) i = findHeaderIdx hm l2 (i + l1.length) := by
  induction l1 generalizing i with
  | nil => simp
  | cons a l1 ih =>
    rw [List.cons_append, findHeaderIdx, if_neg (by simp [h a (by simp)]),
      ih (i + 1) (fun x hx => h x (by simp [hx]))]
    congr 1
    simp only [List.length_cons]
    omega

/-- C4.  End-to-end reshape scenario: any 6 preamble lines, the header
line, the duplicated data row and the third row, with deduplication on,
TSV format, CRLF output, any trim setting, any skip count not exceeding
the preamble length, and a header substring that matches the header line
and none of the scanned preamble lines, produce exactly the expected
output bytes. -/
theorem transform_end_to_end (pre : List String) (skip : Nat) (hm : String)
    (trimW : Bool) (content : String)
    (hlines : rustLines content = pre ++
      ["Plant\tDelivery\tMaterial", "PLT01\t111\t55512345",
       "PLT01\t111\t55512345", "PLT02\t112\t55512346"])
    (hpre : pre.length = 6) (hskip : skip ≤ 6)
    (hnomatch : ∀ l ∈ pre.drop skip,
      containsSub (asciiToLower l) (asciiToLower hm) = false)
    (hmatch : containsSub (asciiToLower "Plant\tDelivery\tMaterial")
      (asciiToLower hm) = true) :
    transform_file ⟨"tsv", skip, hm, true, trimW, "crlf"⟩ content =
      .ok "Plant\tDelivery\tMaterial\r\nPLT01\t111\t55512345\r\nPLT02\t112\t55512346\r\n" := by
  have hlen : (rustLines content).length = 10 := by
    rw [hlines]
    simp [hpre]
  have hnle : ¬ ((rustLines content).length ≤ skip) := by
    rw [hlen]
    omega
  have hdropskip : (rustLines content).drop skip =
      pre.drop skip ++ ["Plant\tDelivery\tMaterial", "PLT01\t111\t55512345",
        "PLT01\t111\t55512345", "PLT02\t112\t55512346"] := by
    rw [hlines, List.drop_append_of_le_length (by omega)]
  have hfhi : findHeaderIdx hm ((rustLines content).drop skip) skip = some 6 := by
    rw [hdropskip, findHeaderIdx_append hm _ _ _ hnomatch]
    have hplen : (pre.drop skip).length = 6 - skip := by simp [hpre]
    rw [hplen, findHeaderIdx, if_pos hmatch]
    congr 1
    omega
  have hfds : find_data_start (rustLines content) skip hm = .ok 7 := by
    rw [find_data_start, if_neg hnle, hfhi]
  have hdrop7 : (rustLines content).drop 7 =
      ["PLT01\t111\t55512345", "PLT01\t111\t55512345",
       "PLT02\t112\t55512346"] := by
    rw [hlines, show (7 : Nat) = 6 + 1 from rfl, ← hpre, ← List.drop_drop,
      List.drop_left]
    rfl
  rw [transform_file, transformWith, if_neg hnle, hfds]
  dsimp only
  rw [hdrop7]
  cases trimW with
  | false => rfl
  | true => rfl

/-- Witness for C4 at a fully concrete input document (preamble lines
"p1".."p6", newline-separated), with the default header substring, trim
enabled and skip count 6. -/
theorem transform_end_to_end_witness :
    transform_file ⟨"tsv", 6, "Plant\tDelivery\tMaterial", true, true, "crlf"⟩
        ("p1\np2\np3\np4\np5\np6\nPlant\tDelivery\tMaterial\nPLT01\t111\t55512345\nPLT01\t111\t55512345\nPLT02\t112\t55512346") =
      .ok "Plant\tDelivery\tMaterial\r\nPLT01\t111\t55512345\r\nPLT02\t112\t55512346\r\n" :=
  transform_end_to_end ["p1", "p2", "p3", "p4", "p5", "p6"] 6
    "Plant\tDelivery\tMaterial" true _ (by decide) (by decide) (by decide)
    (by decide) (by decide)

/-- Witness for C5 at a concrete input: a two-line document with skip
count 4 yields the too-few-lines error, and a two-line document with
skip count 1 and a non-matching header substring falls back to data
start 1 and succeeds. -/
theorem transform_too_few_lines_iff_and_header_fallback_witness :
    transformWith listSet ⟨"tsv", 4, "HDR", false, false, "lf"⟩ "a\nb" =
      .error .tooFewLines ∧
    (find_data_start (rustLines "a\nb") 1 "HDR" = .ok 1 ∧
      ∃ out, transformWith listSet ⟨"tsv", 1, "HDR", false, false, "lf"⟩ "a\nb" =
        .ok out) := by
  constructor
  · exact (transform_too_few_lines_iff_and_header_fallback listSet
      ⟨"tsv", 4, "HDR", false, false, "lf"⟩ "a\nb").1.mpr (by decide)
  · exact (transform_too_few_lines_iff_and_header_fallback listSet
      ⟨"tsv", 1, "HDR", false, false, "lf"⟩ "a\nb").2 (by decide) (by decide)

end ExecRest.Transform

namespace ExecRest.FileUtils

/-- Helper: every outcome of the stability gate is `Ok(())` in the
source. -/
lemma stableOutcome_toResult (o : StableOutcome) : o.toResult = .ok () := by
  cases o <;> rfl

/-- Helper: the polling loop performs at most `20 - i` further polls,
so it never returns with a poll count above the `10 * 2` ceiling. -/
lemma waitLoop_polls_le (reads : Nat → Option Nat) (required : Nat) :
    ∀ (k i lastSize stableCount : Nat), i < 20 → 20 - i ≤ k →
    (waitLoop reads required i lastSize stableCount).polls ≤ 20 := by
  intro k
  induction k with
  | zero => intro i ls sc hi hk; omega
  | succ k ih =>
    intro i ls sc hi hk
    rw [waitLoop]
    cases hr : reads i with
    | some size =>
      dsimp only
      by_cases heq : size = ls
      · rw [if_pos heq]
        by_cases hreq : required ≤ sc + 1
        · rw [if_pos hreq]
          simp only [StableOutcome.polls]
          omega
        · rw [if_neg hreq]
          by_cases hto : 10 * 2 ≤ i + 1
          · rw [if_pos hto]
            simp only [StableOutcome.polls]
            omega
          · rw [if_neg hto]
            exact ih (i + 1) ls (sc + 1) (by omega) (by omega)
      · rw [if_neg heq]
        by_cases hto : 10 * 2 ≤ i + 1
        · rw [if_pos hto]
          simp only [StableOutcome.polls]
          omega
        · rw [if_neg hto]
          exact ih (i + 1) size 0 (by omega) (by omega)
    | none =>
      dsimp only
      by_cases hto : 10 * 2 ≤ i + 1
      · rw [if_pos hto]
        simp only [StableOutcome.polls]
        omega
      · rw [if_neg hto]
        exact ih (i + 1) ls sc (by omega) (by omega)

/-- Helper: with every poll returning the same size as the current
`last_size`, the loop returns stable exactly when the consecutive-equal
counter reaches the requirement, i.e. after `required - stableCount`
further polls. -/
lemma waitLoop_const_stable (reads : Nat → Option Nat) (required sz : Nat)
    (hconst : ∀ j, reads j = some sz) :
    ∀ (d i sc : Nat), sc + d = required → 0 < d → i + d ≤ 20 →
    waitLoop reads required i sz sc = .stable (i + d) := by
  intro d
  induction d with
  | zero => intro i sc _ hd _; omega
  | succ d ih =>
    intro i sc hreq _ hle
    rw [waitLoop, hconst i]
    dsimp only
    rw [if_pos rfl]
    cases Nat.eq_zero_or_pos d with
    | inl hd0 =>
      subst hd0
      rw [if_pos (by omega)]
    | inr hdpos =>
      rw [if_neg (by omega), if_neg (by omega)]
      have := ih (i + 1) (sc + 1) (by omega) hdpos (by omega)
      rw [this]
      congr 1
      omega

/-- C3.  The stability gate always returns `Ok(())` — both on early
stabilization and at the 10-unit hard ceiling — and performs at most
`10 * 2 = 20` half-second polls, so it never blocks past the ceiling;
and on a file whose size polls are constant, it returns the stable
outcome within `max(1, w / 0.5) + 1` polls (the poll that seeds
`last_size` plus the required consecutive equal reads) whenever that
fits below the ceiling. -/
theorem wait_for_stable_file_spec (reads : Nat → Option Nat)
    (stableSecs : Nat) :
    (wait_for_stable_file reads stableSecs).toResult = .ok () ∧
    (wait_for_stable_file reads stableSecs).polls ≤ 20 ∧
    (∀ sz : Nat, (∀ j, reads j = some sz) →
      max (stableSecs * 2) 1 + 1 ≤ 20 →
      ∃ p, wait_for_stable_file reads stableSecs = .stable p ∧
        p ≤ max (stableSecs * 2) 1 + 1) := by
  refine ⟨stableOutcome_toResult _, ?_, ?_⟩
  · rw [wait_for_stable_file]
    exact waitLoop_polls_le reads _ 20 0 0 0 (by omega) (by omega)
  · intro sz hconst hfit
    by_cases hz : sz = 0
    · subst hz
      refine ⟨max (stableSecs * 2) 1, ?_, by omega⟩
      rw [wait_for_stable_file]
      have := waitLoop_const_stable reads (max (stableSecs * 2) 1) 0 hconst
        (max (stableSecs * 2) 1) 0 0 (by omega) (by omega) (by omega)
      simpa using this
    · refine ⟨1 + max (stableSecs * 2) 1, ?_, by omega⟩
      rw [wait_for_stable_file, waitLoop, hconst 0]
      dsimp only
      rw [if_neg (by exact hz), if_neg (by omega)]
      exact waitLoop_const_stable reads (max (stableSecs * 2) 1) sz hconst
        (max (stableSecs * 2) 1) 1 0 (by omega) (by omega) (by omega)

/-- Witness for C3: constant size polls of 5 bytes with a 2-second
stability window return the stable outcome within 5 polls, and the gate
returns `Ok(())`. -/
theorem wait_for_stable_file_spec_witness :
    (wait_for_stable_file (fun _ => some 5) 2).toResult = .ok () ∧
    ∃ p, wait_for_stable_file (fun _ => some 5) 2 = .stable p ∧
      p ≤ max (2 * 2) 1 + 1 := by
  exact ⟨(wait_for_stable_file_spec (fun _ => some 5) 2).1,
    (wait_for_stable_file_spec (fun _ => some 5) 2).2.2 5 (fun j => rfl)
      (by decide)⟩

end ExecRest.FileUtils

namespace ExecRest.Upload

/-- C1.  The claim states that a 4xx client-error response below the
attempt ceiling fails immediately, with no sleep and no further
attempt.  The code violates this: `handle_response` renders an HTTP 405
as "Client error (405 Method Not Allowed): …", `is_retryable_error`
finds the digit "5" in that message and classifies it retryable, so
`upload_file` sleeps the 3-second initial backoff and issues a second
attempt (`max_attempts = 3`).  This contradicts both the source's own
comment ("Retry on network errors, timeouts, and 5xx server errors")
and the behaviour the claim states; the theorem evaluates the model at
the failing input. -/
theorem upload_retries_4xx_with_digit5 :
    handleResponse 405 "" = .error clientError405 ∧
    is_retryable_error clientError405 = true ∧
    upload_file (fun n => if n = 1 then some clientError405 else none) 3 3 =
      .success 2 [3] := by
  refine ⟨rfl, by decide, ?_⟩
  have h5 : is_retryable_error clientError405 = true := by decide
  rw [upload_file, uploadLoop]
  norm_num [h5]
  rw [uploadLoop]
  norm_num

end ExecRest.Upload

namespace ExecRest.FileUtils

/-- C10.  The claim states the timestamp-prefix parsing is total and
never panics, including for non-ASCII filenames of byte length at least
14.  The code slices the first 14 bytes of the filename with
`&filename[..14]`, which panics when byte 14 is not a character
boundary: the filename of five three-byte characters below has byte
length 15, byte 14 falls inside its last character, so the parse
panics (`Except.error ()`) instead of returning a value or falling back
to the modification time. -/
theorem parse_timestamp_panics_on_nonascii_filename :
    parse_timestamp_from_filename "中中中中中" = .error () ∧
    byteLen ("中中中中中".data) = 15 ∧
    14 ≤ byteLen ("中中中中中".data) := by
  refine ⟨rfl, rfl, by decide⟩

end ExecRest.FileUtils

namespace ExecRest.Lookup

/-- C8.  The object-shaped response and the array-shaped response of the
dual-schema claim parse to the same lookup map, and merging that map
into a row with part number "123" yields the identical enriched row
under either response shape. -/
theorem dual_schema_responses_identical :
    parseLookupResponse objResponse = .ok [("123", ⟨"d1", "c1", "US"⟩)] ∧
    parseLookupResponse arrResponse = .ok [("123", ⟨"d1", "c1", "US"⟩)] ∧
    merge_lookup_data [baseRow "P1" "D1" "123"]
        (lookupGet [("123", ⟨"d1", "c1", "US"⟩)]) =
      [⟨"P1", "D1", "123", "d1", "c1", "US", ""⟩] :=
  ⟨rfl, rfl, rfl⟩

/-- C7.  The merge step maps the row list position-wise: the length is
preserved (no row is ever dropped), a row whose part number is a key of
the lookup map receives exactly that entry's duns, cof and country, and
a row without a match is returned unchanged. -/
theorem merge_lookup_data_preserves_rows (rows : List EnrichedRow)
    (m : String → Option LookupResponse) :
    (merge_lookup_data rows m).length = rows.length ∧
    (∀ (i : Nat) (r : EnrichedRow) (e : LookupResponse),
      rows[i]? = some r → m r.part_no = some e →
      (merge_lookup_data rows m)[i]? =
        some { r with duns := e.duns, cof := e.cof, country := e.country }) ∧
    (∀ (i : Nat) (r : EnrichedRow), rows[i]? = some r → m r.part_no = none →
      (merge_lookup_data rows m)[i]? = some r) := by
  refine ⟨by simp [merge_lookup_data], ?_, ?_⟩
  · intro i r e hr hm
    simp [merge_lookup_data, List.getElem?_map, hr, hm]
  · intro i r hr hm
    simp [merge_lookup_data, List.getElem?_map, hr, hm]

/-- Witness for C7 at a concrete row list and lookup map: the first row
has a match and is updated, the second has none and is unchanged, and
the row count is preserved. -/
theorem merge_lookup_data_preserves_rows_witness :
    (merge_lookup_data [baseRow "P1" "D1" "x", baseRow "P2" "D2" "y"]
        (lookupGet [("x", ⟨"d", "c", "US"⟩)]))[0]? =
      some ⟨"P1", "D1", "x", "d", "c", "US", ""⟩ ∧
    (merge_lookup_data [baseRow "P1" "D1" "x", baseRow "P2" "D2" "y"]
        (lookupGet [("x", ⟨"d", "c", "US"⟩)]))[1]? =
      some (baseRow "P2" "D2" "y") ∧
    (merge_lookup_data [baseRow "P1" "D1" "x", baseRow "P2" "D2" "y"]
        (lookupGet [("x", ⟨"d", "c", "US"⟩)])).length = 2 := by
  refine ⟨?_, ?_, ?_⟩
  · exact (merge_lookup_data_preserves_rows _ _).2.1 0 (baseRow "P1" "D1" "x")
      ⟨"d", "c", "US"⟩ rfl rfl
  · exact (merge_lookup_data_preserves_rows _ _).2.2 1 (baseRow "P2" "D2" "y")
      rfl rfl
  · exact (merge_lookup_data_preserves_rows
      [baseRow "P1" "D1" "x", baseRow "P2" "D2" "y"]
      (lookupGet [("x", ⟨"d", "c", "US"⟩)])).1

end ExecRest.Lookup

namespace ExecRest.FileUtils

/-- Helper: propositional reading of the leap-year test. -/
lemma isLeap_iff (y : Nat) :
    isLeap y = true ↔ (y % 4 = 0 ∧ (y % 100 ≠ 0 ∨ y % 400 = 0)) := by
  simp [isLeap]

/-- Helper: one-year step of the leap-year count. -/
lemma leapsBefore_succ (y : Nat) :
    leapsBefore (y + 1) = leapsBefore y + (if isLeap y = true then 1 else 0) := by
  by_cases hl : isLeap y = true
  · rw [if_pos hl]
    have hy := (isLeap_iff y).mp hl
    unfold leapsBefore
    omega
  · rw [if_neg hl]
    have hy : ¬(y % 4 = 0 ∧ (y % 100 ≠ 0 ∨ y % 400 = 0)) := by
      rw [← isLeap_iff]
      exact hl
    unfold leapsBefore
    omega

/-- Helper: one-year step of the day count. -/
lemma yearBase_succ (y : Nat) :
    365 * (y + 1) + leapsBefore (y + 1) =
      365 * y + leapsBefore y + 365 + (if isLeap y = true then 1 else 0) := by
  rw [leapsBefore_succ]
  ring

/-- Helper: the day count of year starts is monotone. -/
lemma yearBase_mono (y1 y2 : Nat) (h : y1 ≤ y2) :
    365 * y1 + leapsBefore y1 ≤ 365 * y2 + leapsBefore y2 := by
  induction y2, h using Nat.le_induction with
  | base => exact Nat.le_refl _
  | succ y2 hle ih =>
    refine Nat.le_trans ih ?_
    rw [yearBase_succ]
    omega

/-- Helper (finite check): months are consecutive day ranges. -/
lemma monthOffset_add_le : ∀ (leap : Bool), ∀ m1 < 13, ∀ m2 < 13,
    1 ≤ m1 → m1 < m2 →
    monthOffset leap m1 + daysInMonth leap m1 ≤ monthOffset leap m2 := by
  decide

/-- Helper (finite check): a valid day offset stays within the year. -/
lemma monthOffset_day_lt : ∀ (leap : Bool), ∀ m < 13, ∀ d < 32,
    1 ≤ m → 1 ≤ d → d ≤ daysInMonth leap m →
    monthOffset leap m + (d - 1) < 365 + (if leap = true then 1 else 0) := by
  decide

/-- Helper (finite check): no month has more than 31 days. -/
lemma daysInMonth_le : ∀ (leap : Bool), ∀ m < 13, daysInMonth leap m ≤ 31 := by
  decide

/-- Helper: the day number is strictly monotone in the lexicographic
order of valid calendar dates. -/
lemma dayNumber_lt (y1 m1 d1 y2 m2 d2 : Nat)
    (hv1 : 1 ≤ m1 ∧ m1 ≤ 12 ∧ 1 ≤ d1 ∧ d1 ≤ daysInMonth (isLeap y1) m1)
    (hv2 : 1 ≤ m2 ∧ m2 ≤ 12 ∧ 1 ≤ d2 ∧ d2 ≤ daysInMonth (isLeap y2) m2)
    (hlex : y1 < y2 ∨ (y1 = y2 ∧ (m1 < m2 ∨ (m1 = m2 ∧ d1 < d2)))) :
    dayNumber y1 m1 d1 < dayNumber y2 m2 d2 := by
  obtain ⟨hm1a, hm1b, hd1a, hd1b⟩ := hv1
  obtain ⟨hm2a, hm2b, hd2a, hd2b⟩ := hv2
  have hdim1 : daysInMonth (isLeap y1) m1 ≤ 31 :=
    daysInMonth_le (isLeap y1) m1 (by omega)
  rcases hlex with hy | ⟨rfl, hm | ⟨rfl, hd⟩⟩
  · have hin : monthOffset (isLeap y1) m1 + (d1 - 1) <
        365 + (if isLeap y1 = true then 1 else 0) :=
      monthOffset_day_lt (isLeap y1) m1 (by omega) d1 (by omega) hm1a hd1a hd1b
    have hstep : 365 * y1 + leapsBefore y1 + 365 +
        (if isLeap y1 = true then 1 else 0) ≤ 365 * y2 + leapsBefore y2 := by
      rw [← yearBase_succ]
      exact yearBase_mono (y1 + 1) y2 (by omega)
    unfold dayNumber
    omega
  · have hmono : monthOffset (isLeap y1) m1 + daysInMonth (isLeap y1) m1 ≤
        monthOffset (isLeap y1) m2 :=
      monthOffset_add_le (isLeap y1) m1 (by omega) m2 (by omega) hm1a hm
    unfold dayNumber
    omega
  · unfold dayNumber
    omega

end ExecRest.FileUtils

namespace ExecRest.FileUtils

/-- Helper: epoch seconds are strictly monotone in the 14-digit
`YYYYMMDDhhmmss` value, for valid calendar times.  This is the key fact
behind prefix-ordered file selection: a numerically larger digit prefix
is a strictly later `SystemTime`. -/
lemma epochSecs_lt
    (y1 m1 d1 h1 mi1 s1 y2 m2 d2 h2 mi2 s2 : Nat)
    (hv1 : validFields y1 m1 d1 h1 mi1 s1 = true)
    (hv2 : validFields y2 m2 d2 h2 mi2 s2 = true)
    (hn : ((((y1 * 100 + m1) * 100 + d1) * 100 + h1) * 100 + mi1) * 100 + s1 <
          ((((y2 * 100 + m2) * 100 + d2) * 100 + h2) * 100 + mi2) * 100 + s2) :
    epochSecs y1 m1 d1 h1 mi1 s1 < epochSecs y2 m2 d2 h2 mi2 s2 := by
  simp only [validFields, Bool.and_eq_true, decide_eq_true_eq] at hv1 hv2
  obtain ⟨⟨⟨⟨⟨⟨hm1a, hm1b⟩, hd1a⟩, hd1b⟩, hh1⟩, hmi1⟩, hs1⟩ := hv1
  obtain ⟨⟨⟨⟨⟨⟨hm2a, hm2b⟩, hd2a⟩, hd2b⟩, hh2⟩, hmi2⟩, hs2⟩ := hv2
  have hdim1 : daysInMonth (isLeap y1) m1 ≤ 31 := daysInMonth_le _ m1 (by omega)
  have hdim2 : daysInMonth (isLeap y2) m2 ≤ 31 := daysInMonth_le _ m2 (by omega)
  have hdate : (y1 < y2 ∨ (y1 = y2 ∧ (m1 < m2 ∨ (m1 = m2 ∧ d1 < d2)))) ∨
      (y1 = y2 ∧ m1 = m2 ∧ d1 = d2 ∧
        h1 * 3600 + mi1 * 60 + s1 < h2 * 3600 + mi2 * 60 + s2) := by
    omega
  rcases hdate with hlex | ⟨rfl, rfl, rfl, hsod⟩
  · have hdn : dayNumber y1 m1 d1 < dayNumber y2 m2 d2 :=
      dayNumber_lt y1 m1 d1 y2 m2 d2 ⟨hm1a, hm1b, hd1a, hd1b⟩
        ⟨hm2a, hm2b, hd2a, hd2b⟩ hlex
    have hsod1 : h1 * 3600 + mi1 * 60 + s1 < 86400 := by omega
    unfold epochSecs epochShift
    omega
  · unfold epochSecs epochShift
    omega

end ExecRest.FileUtils

namespace ExecRest.FileUtils

/-- Helper: folding digits from a non-zero accumulator shifts the
accumulator by the number of remaining digits. -/
lemma digits_foldl_init (l : List Char) (init : Nat) :
    l.foldl (fun a c => 10 * a + (c.toNat - 48)) init =
      init * 10 ^ l.length + digitsToNat l := by
  induction l generalizing init with
  | nil => simp [digitsToNat]
  | cons c l ih =>
    rw [List.foldl_cons, ih]
    conv_rhs => rw [digitsToNat, List.foldl_cons, ih]
    simp only [List.length_cons, pow_succ]
    ring

/-- Helper: digit value of a concatenation. -/
lemma digitsToNat_append (a b : List Char) :
    digitsToNat (a ++ b) = digitsToNat a * 10 ^ b.length + digitsToNat b := by
  rw [digitsToNat, List.foldl_append, digits_foldl_init]
  rfl

/-- Helper: splitting a digit string at position `k`. -/
lemma digitsToNat_take_drop (k : Nat) (l : List Char) :
    digitsToNat l =
      digitsToNat (l.take k) * 10 ^ (l.drop k).length + digitsToNat (l.drop k) := by
  conv_lhs => rw [← List.take_append_drop k l]
  rw [digitsToNat_append]

/-- Helper: the 14-digit prefix value decomposes into the six timestamp
fields read by `parse_timestamp_from_filename`. -/
lemma digits14 (pre : List Char) (hlen : pre.length = 14) :
    digitsToNat pre =
      ((((digitsToNat (pre.take 4) * 100 + digitsToNat ((pre.drop 4).take 2)) *
        100 + digitsToNat ((pre.drop 6).take 2)) * 100 +
        digitsToNat ((pre.drop 8).take 2)) * 100 +
        digitsToNat ((pre.drop 10).take 2)) * 100 +
        digitsToNat ((pre.drop 12).take 2) := by
  have h4 : (pre.drop 4).drop 2 = pre.drop 6 := by
    rw [List.drop_drop]
  have h6 : (pre.drop 6).drop 2 = pre.drop 8 := by
    rw [List.drop_drop]
  have h8 : (pre.drop 8).drop 2 = pre.drop 10 := by
    rw [List.drop_drop]
  have h10 : (pre.drop 10).drop 2 = pre.drop 12 := by
    rw [List.drop_drop]
  have h12 : (pre.drop 12).take 2 = pre.drop 12 :=
    List.take_of_length_le (by simp [hlen])
  rw [digitsToNat_take_drop 4 pre]
  rw [digitsToNat_take_drop 2 (pre.drop 4), h4]
  rw [digitsToNat_take_drop 2 (pre.drop 6), h6]
  rw [digitsToNat_take_drop 2 (pre.drop 8), h8]
  rw [digitsToNat_take_drop 2 (pre.drop 10), h10]
  rw [h12]
  simp only [List.length_drop, List.length_take, hlen]
  norm_num
  ring

end ExecRest.FileUtils

namespace ExecRest.FileUtils

/-- Helper: a successful byte-slice extraction returns a prefix of the
string holding exactly the requested number of bytes. -/
lemma takeBytes_ok : ∀ (cs : List Char) (n : Nat) (pre : List Char),
    takeBytes n cs = .ok pre → byteLen pre = n ∧ pre <+: cs := by
  intro cs
  induction cs with
  | nil =>
    intro n pre h
    cases n with
    | zero =>
      cases h
      exact ⟨rfl, List.nil_prefix⟩
    | succ n => exact absurd h (by simp [takeBytes])
  | cons c cs ih =>
    intro n pre h
    cases n with
    | zero =>
      cases h
      exact ⟨rfl, List.nil_prefix⟩
    | succ n =>
      rw [takeBytes] at h
      by_cases hle : utf8Len c ≤ n + 1
      · rw [if_pos hle] at h
        cases htb : takeBytes (n + 1 - utf8Len c) cs with
        | error e => rw [htb] at h; exact absurd h (by simp [Except.map])
        | ok pre' =>
          rw [htb] at h
          cases h
          obtain ⟨hblen, hpref⟩ := ih (n + 1 - utf8Len c) pre' htb
          constructor
          · show utf8Len c + byteLen pre' = n + 1
            omega
          · exact List.cons_prefix_cons.mpr ⟨rfl, hpref⟩
      · rw [if_neg hle] at h
        exact absurd h (by simp)

/-- Helper: ASCII digits encode in one UTF-8 byte. -/
lemma digit_utf8Len (c : Char) (h : isAsciiDigit c = true) : utf8Len c = 1 := by
  simp only [isAsciiDigit, Bool.and_eq_true, decide_eq_true_eq] at h
  rw [utf8Len, if_pos (by omega)]

/-- Helper: an all-digit string has as many bytes as characters. -/
lemma byteLen_digits (pre : List Char) (h : pre.all isAsciiDigit = true) :
    byteLen pre = pre.length := by
  induction pre with
  | nil => rfl
  | cons c cs ih =>
    rw [List.all_cons, Bool.and_eq_true] at h
    show utf8Len c + byteLen cs = cs.length + 1
    rw [digit_utf8Len c h.1, ih h.2]
    omega

/-- Helper: a prefix of length 14 is the `take 14`. -/
lemma prefix_take14 (pre cs : List Char) (h : pre <+: cs)
    (hlen : pre.length = 14) : cs.take 14 = pre := by
  obtain ⟨t, rfl⟩ := h
  rw [← hlen]
  exact List.take_left pre t

end ExecRest.FileUtils

namespace ExecRest.FileUtils

/-- Helper: a successful timestamp parse exposes six valid calendar
fields whose nested base-100 combination is exactly the numeric value of
the filename's first 14 characters. -/
lemma parse_ok_spec (name : String) (t : Int)
    (h : parse_timestamp_from_filename name = .ok (some t)) :
    ∃ y m d hh mi s, validFields y m d hh mi s = true ∧
      t = epochSecs y m d hh mi s ∧
      digitsToNat (name.data.take 14) =
        ((((y * 100 + m) * 100 + d) * 100 + hh) * 100 + mi) * 100 + s := by
  rw [parse_timestamp_from_filename] at h
  by_cases hshort : byteLen name.data < 14
  · rw [if_pos hshort] at h
    exact absurd h (by simp)
  · rw [if_neg hshort] at h
    cases htb : takeBytes 14 name.data with
    | error e =>
      rw [htb] at h
      exact absurd h (by simp)
    | ok pre =>
      rw [htb] at h
      dsimp only at h
      by_cases hdig : pre.all isAsciiDigit = true
      · rw [if_pos hdig] at h
        by_cases hvf : validFields (digitsToNat (pre.take 4))
            (digitsToNat ((pre.drop 4).take 2)) (digitsToNat ((pre.drop 6).take 2))
            (digitsToNat ((pre.drop 8).take 2)) (digitsToNat ((pre.drop 10).take 2))
            (digitsToNat ((pre.drop 12).take 2)) = true
        · rw [if_pos hvf] at h
          obtain ⟨hblen, hpref⟩ := takeBytes_ok name.data 14 pre htb
          have hplen : pre.length = 14 := by
            rw [← byteLen_digits pre hdig, hblen]
          have htake : name.data.take 14 = pre := prefix_take14 pre name.data hpref hplen
          refine ⟨digitsToNat (pre.take 4), digitsToNat ((pre.drop 4).take 2),
            digitsToNat ((pre.drop 6).take 2), digitsToNat ((pre.drop 8).take 2),
            digitsToNat ((pre.drop 10).take 2), digitsToNat ((pre.drop 12).take 2),
            hvf, ?_, ?_⟩
          · cases h
            rfl
          · rw [htake]
            exact digits14 pre hplen
        · rw [if_neg hvf] at h
          exact absurd h (by simp)
      · rw [if_neg hdig] at h
        exact absurd h (by simp)

/-- Helper: `hasValidTs` exposes the parsed timestamp. -/
lemma hasValidTs_parse (f : FileEntry) (h : hasValidTs f = true) :
    parse_timestamp_from_filename f.name = .ok (some (parsedTs f)) := by
  rw [hasValidTs] at h
  rw [parsedTs]
  cases hp : parse_timestamp_from_filename f.name with
  | error e => rw [hp] at h; exact absurd h (by simp)
  | ok o =>
    cases o with
    | none => rw [hp] at h; exact absurd h (by simp)
    | some t => rfl

/-- Helper: the parsed prefix timestamp is strictly monotone in the
numeric prefix, across candidates with valid prefixes. -/
lemma parsedTs_lt (f g : FileEntry) (hf : hasValidTs f = true)
    (hg : hasValidTs g = true) (hlt : prefixNum f < prefixNum g) :
    parsedTs f < parsedTs g := by
  obtain ⟨y1, m1, d1, h1, mi1, s1, hv1, ht1, hn1⟩ :=
    parse_ok_spec f.name (parsedTs f) (hasValidTs_parse f hf)
  obtain ⟨y2, m2, d2, h2, mi2, s2, hv2, ht2, hn2⟩ :=
    parse_ok_spec g.name (parsedTs g) (hasValidTs_parse g hg)
  rw [ht1, ht2]
  refine epochSecs_lt y1 m1 d1 h1 mi1 s1 y2 m2 d2 h2 mi2 s2 hv1 hv2 ?_
  rw [← hn1, ← hn2]
  exact hlt

end ExecRest.FileUtils

namespace ExecRest.FileUtils

/-- Helper: for a candidate with a valid prefix and readable metadata,
the effective timestamp is the parsed prefix timestamp. -/
lemma effTime_valid (f : FileEntry) (hf : hasValidTs f = true)
    (hm : f.mtime.isSome = true) : effTime true f = .ok (parsedTs f) := by
  obtain ⟨mt, hmt⟩ := Option.isSome_iff_exists.mp hm
  rw [effTime, get_file_time, hmt]
  dsimp only
  rw [if_pos rfl, hasValidTs_parse f hf]
  rfl

/-- Helper: the selection scan returns a candidate whose effective
timestamp dominates the running best and every scanned candidate. -/
lemma selectNewest_spec (fs : List FileEntry) :
    ∀ (best : FileEntry) (bt : Int), effTime true best = .ok bt →
    (∀ g ∈ fs, ∃ tg, effTime true g = .ok tg) →
    ∃ f tf, selectNewest true fs best bt = .ok (some f) ∧
      effTime true f = .ok tf ∧ bt ≤ tf ∧ (f = best ∨ f ∈ fs) ∧
      ∀ g ∈ fs, ∀ tg, effTime true g = .ok tg → tg ≤ tf := by
  induction fs with
  | nil =>
    intro best bt hbt _
    exact ⟨best, bt, rfl, hbt, le_refl bt, Or.inl rfl, by simp⟩
  | cons g gs ih =>
    intro best bt hbt hall
    obtain ⟨tg, htg⟩ := hall g (by simp)
    rw [selectNewest, htg]
    dsimp only
    by_cases hlt : bt < tg
    · rw [if_pos hlt]
      obtain ⟨f, tf, hsel, htf, hle, hmem, hmax⟩ := ih g tg htg
        (fun x hx => hall x (by simp [hx]))
      refine ⟨f, tf, hsel, htf, by omega, ?_, ?_⟩
      · rcases hmem with rfl | hmem
        · exact Or.inr (by simp)
        · exact Or.inr (by simp [hmem])
      · intro x hx tx htx
        rcases List.mem_cons.mp hx with rfl | hx
        · rw [htg] at htx
          cases htx
          omega
        · exact hmax x hx tx htx
    · rw [if_neg hlt]
      obtain ⟨f, tf, hsel, htf, hle, hmem, hmax⟩ := ih best bt hbt
        (fun x hx => hall x (by simp [hx]))
      refine ⟨f, tf, hsel, htf, hle, ?_, ?_⟩
      · rcases hmem with rfl | hmem
        · exact Or.inl rfl
        · exact Or.inr (by simp [hmem])
      · intro x hx tx htx
        rcases List.mem_cons.mp hx with rfl | hx
        · rw [htg] at htx
          cases htx
          omega
        · exact hmax x hx tx htx

/-- C2.  With filename-timestamp mode enabled, a non-empty candidate set
in which every file has a valid 14-digit `YYYYMMDDhhmmss` prefix (and
readable metadata) makes `find_newest_file` return a candidate whose
14-digit numeric prefix is greatest — whatever the filesystem
modification times are, since a valid prefix always overrides them. -/
theorem find_newest_file_max_prefix (files : List FileEntry)
    (hne : files ≠ [])
    (hall : ∀ f ∈ files, hasValidTs f = true ∧ f.mtime.isSome = true) :
    ∃ f, find_newest_file true files = .ok (some f) ∧ f ∈ files ∧
      ∀ g ∈ files, prefixNum g ≤ prefixNum f := by
  cases files with
  | nil => exact absurd rfl hne
  | cons f0 fs =>
    have h0 := hall f0 (by simp)
    have he0 : effTime true f0 = .ok (parsedTs f0) := effTime_valid f0 h0.1 h0.2
    rw [find_newest_file, he0]
    obtain ⟨f, tf, hsel, htf, hle, hmem, hmax⟩ :=
      selectNewest_spec fs f0 (parsedTs f0) he0 (fun g hg =>
        ⟨parsedTs g, effTime_valid g (hall g (by simp [hg])).1
          (hall g (by simp [hg])).2⟩)
    have hfmem : f ∈ f0 :: fs := by
      rcases hmem with rfl | hmem
      · simp
      · simp [hmem]
    have htf' : tf = parsedTs f := by
      have := effTime_valid f (hall f hfmem).1 (hall f hfmem).2
      rw [htf] at this
      cases this
      rfl
    refine ⟨f, hsel, hfmem, ?_⟩
    intro g hg
    by_contra hgt
    push_neg at hgt
    have hglt : parsedTs f < parsedTs g :=
      parsedTs_lt f g (hall f hfmem).1 (hall g hg).1 hgt
    rcases List.mem_cons.mp hg with rfl | hg'
    · rw [htf'] at hle
      omega
    · have hbound : parsedTs g ≤ tf :=
        hmax g hg' (parsedTs g)
          (effTime_valid g (hall g hg).1 (hall g hg).2)
      rw [htf'] at hbound
      omega

end ExecRest.FileUtils

namespace ExecRest.FileUtils

/-- Witness for C2: two candidates whose modification-time order opposes
their prefix order; the selected file is the one with the numerically
larger 14-digit prefix. -/
theorem find_newest_file_max_prefix_witness :
    ∃ f, find_newest_file true
        [⟨"20250101000000_a.txt", some 999999999⟩,
         ⟨"20251016170602_b.txt", some 0⟩] = .ok (some f) ∧
      f ∈ [(⟨"20250101000000_a.txt", some 999999999⟩ : FileEntry),
        ⟨"20251016170602_b.txt", some 0⟩] ∧
      ∀ g ∈ [(⟨"20250101000000_a.txt", some 999999999⟩ : FileEntry),
        ⟨"20251016170602_b.txt", some 0⟩], prefixNum g ≤ prefixNum f :=
  find_newest_file_max_prefix
    [⟨"20250101000000_a.txt", some 999999999⟩,
     ⟨"20251016170602_b.txt", some 0⟩] (by decide) (by decide)

end ExecRest.FileUtils
